import Mathlib

/-!
Shallow embedding of the Chas_backend direct-messaging service
(src/main.py, src/models.py, src/database.py).

The embedding covers the three core components of the service:
- the `ConnectionManager` WebSocket registry (connect / disconnect /
  send_personal_message / broadcast), modelled as an association list from
  user ids to channels, mirroring the insertion-ordered Python dict
  `active_connections`;
- the MongoDB-backed message and conversation collections, modelled as lists
  of records with explicit `_id` fields, together with the subset of MongoDB
  operations the code uses (`insert_one`, `find_one` with an or-filter,
  `update_one` by id or by or-filter, `update_many`, `find.sort.limit`);
- the `/messages/send` and `/messages/{other_user_id}` endpoint bodies
  (`send_message`, `get_messages`).

Machine details abstracted: BSON ObjectIds become `Nat` minted from a
counter, `datetime.now()` becomes a `Nat` timestamp supplied by the caller,
and a WebSocket channel becomes a record with an id, a health flag deciding
whether `send_text` succeeds, and the list of payloads it has received.
-/

namespace Chas

/-- A live WebSocket channel: an identity, whether `send_text` on it
succeeds, and the text payloads delivered to it so far. -/
structure Channel where
  chanId : Nat
  healthy : Bool
  received : List String
deriving DecidableEq, Repr

/-- Model of `websocket.send_text(message)`: succeeds (returning the channel
with the payload appended to its delivery log) iff the channel is healthy; an
unhealthy channel raises, modelled as `none`. -/
def sendText (ch : Channel) (message : String) : Option Channel :=
  if ch.healthy then some { ch with received := ch.received ++ [message] } else none

/-- Model of `ConnectionManager.active_connections`: a Python dict from user
id to WebSocket, modelled as an insertion-ordered association list. -/
abbrev Manager := List (String × Channel)

/-- Dict keys of the registry. -/
def keysOf (m : Manager) : List String := m.map (fun p => p.1)

/-- The Python-dict invariant: each user id occurs at most once. -/
abbrev NodupKeys (m : Manager) : Prop := (keysOf m).Nodup

/-- Dict access `active_connections[user_id]`, as an optional lookup. -/
def lookup (m : Manager) (user_id : String) : Option Channel :=
  (m.find? (fun p => p.1 == user_id)).map (fun p => p.2)

/-- Model of `ConnectionManager.connect`: `self.active_connections[user_id] = websocket`.
Dict assignment: an existing key keeps its position and gets the new value;
a fresh key is appended. -/
def connect (m : Manager) (user_id : String) (ch : Channel) : Manager :=
  if m.any (fun p => p.1 == user_id) then
    m.map (fun p => if p.1 == user_id then (user_id, ch) else p)
  else
    m ++ [(user_id, ch)]

/-- Model of `ConnectionManager.disconnect`: delete the entry for `user_id` if
present, no-op otherwise. -/
def disconnect (m : Manager) (user_id : String) : Manager :=
  m.filter (fun p => p.1 != user_id)

/-- Model of `ConnectionManager.send_personal_message`: if `user_id` is registered,
try `send_text`; on failure swallow the exception and `disconnect` the user.
Returns the new registry state; no error is ever surfaced. -/
def send_personal_message (m : Manager) (message : String) (user_id : String) : Manager :=
  match m.find? (fun p => p.1 == user_id) with
  | none => m
  | some entry =>
    match sendText entry.2 message with
    | some ch' => m.map (fun p => if p.1 == user_id then (user_id, ch') else p)
    | none => disconnect m user_id

/-- One step of the `broadcast` loop body: try `send_text` on the entry; on
success keep the (updated) entry, on failure keep the entry untouched and
append its user id to the `disconnected` list. -/
def passStep (message : String) (acc : Manager × List String)
    (p : String × Channel) : Manager × List String :=
  match sendText p.2 message with
  | some ch' => (acc.1 ++ [(p.1, ch')], acc.2)
  | none => (acc.1 ++ [p], acc.2 ++ [p.1])

/-- Model of `ConnectionManager.broadcast`: iterate over all registered connections,
attempting `send_text` on each and collecting the user ids whose delivery
failed; after the pass completes, disconnect each collected id. -/
def broadcast (m : Manager) (message : String) : Manager :=
  let pass := m.foldl (passStep message) ([], [])
  pass.2.foldl (fun mm uid => disconnect mm uid) pass.1

/-- A document of the `messages` collection (models.Message plus its
Mongo `_id`). -/
structure Message where
  mid : Nat
  sender_id : String
  receiver_id : String
  content : String
  timestamp : Nat
  read : Bool
deriving DecidableEq, Repr

/-- A document of the `conversations` collection (models.Conversation plus
its Mongo `_id`). -/
structure Conversation where
  cid : Nat
  participant1 : String
  participant2 : String
  last_message : String
  last_message_time : Nat
  unread_count : Nat
deriving DecidableEq, Repr

/-- The persistent store: the two collections the messaging core touches,
plus the counter minting fresh ObjectIds. -/
structure DB where
  messages : List Message
  conversations : List Conversation
  nextId : Nat
deriving DecidableEq, Repr

def emptyDB : DB := { messages := [], conversations := [], nextId := 0 }

/-- The or-filter used on the `conversations` collection:
`{$or: [{participant1: a, participant2: b}, {participant1: b, participant2: a}]}`. -/
def pairPred (a b : String) (c : Conversation) : Bool :=
  (c.participant1 == a && c.participant2 == b) ||
  (c.participant1 == b && c.participant2 == a)

/-- Model of `conversations_collection.find_one` with the two-ordering or-filter:
first matching document in natural order. -/
def findConversation (convs : List Conversation) (a b : String) : Option Conversation :=
  convs.find? (pairPred a b)

/-- Mongo `update_one` semantics: rewrite the first document matching the
filter; no-op when nothing matches. -/
def updateFirst (p : α → Bool) (f : α → α) : List α → List α
  | [] => []
  | x :: xs => if p x then f x :: xs else x :: updateFirst p f xs

/-- The real-time notification payload built by `/messages/send`. -/
structure Notification where
  type : String
  message_id : Nat
  sender_id : String
  sender_name : String
  content : String
  timestamp : Nat
deriving DecidableEq, Repr

/-- Update applied by `send_message` to an existing conversation document:
`$set` of the last-message fields plus `$inc` of `unread_count` by 1. -/
def updF (content : String) (now : Nat) (c : Conversation) : Conversation :=
  { c with last_message := content, last_message_time := now,
           unread_count := c.unread_count + 1 }

/-- Fresh conversation document inserted by `send_message` when the pair has
none, with `unread_count` initialised to 1. -/
def freshConv (cid : Nat) (sender_id receiver_id content : String) (now : Nat) : Conversation :=
  { cid := cid, participant1 := sender_id, participant2 := receiver_id,
    last_message := content, last_message_time := now, unread_count := 1 }

/-- Update applied by `get_messages` to the pair's conversation document:
`$set` of `unread_count` to 0. -/
def resetF (c : Conversation) : Conversation := { c with unread_count := 0 }

/-- Body of `POST /messages/send` (src/main.py `send_message`): insert the
message with `read = false`; look up the conversation for the pair with the
two-ordering or-filter; if found, `$set` last message fields and `$inc` the
unread counter on that document, else insert a fresh conversation with
`unread_count = 1`; build the notification payload and return it together
with the new message id. The `ConnectionManager` is not touched. -/
def send_message (db : DB) (sender_id sender_name receiver_id content : String)
    (now : Nat) : DB × Nat × Notification :=
  let msg : Message :=
    { mid := db.nextId, sender_id := sender_id, receiver_id := receiver_id,
      content := content, timestamp := now, read := false }
  let db1 : DB := { db with messages := db.messages ++ [msg], nextId := db.nextId + 1 }
  let db2 : DB :=
    match findConversation db1.conversations sender_id receiver_id with
    | some conv =>
      let convs' := updateFirst (fun c => c.cid == conv.cid) (updF content now) db1.conversations
      { db1 with conversations := convs' }
    | none =>
      let fresh := freshConv db1.nextId sender_id receiver_id content now
      { db1 with conversations := db1.conversations ++ [fresh], nextId := db1.nextId + 1 }
  (db2, msg.mid,
    { type := "new_message", message_id := msg.mid, sender_id := sender_id,
      sender_name := sender_name, content := content, timestamp := now })

/-- The or-filter used on the `messages` collection:
`{$or: [{sender_id: u, receiver_id: o}, {sender_id: o, receiver_id: u}]}`. -/
def matchesPair (u o : String) (m : Message) : Bool :=
  (m.sender_id == u && m.receiver_id == o) ||
  (m.sender_id == o && m.receiver_id == u)

/-- The sort key of `.sort("timestamp", 1)`. -/
def tsLe (x y : Message) : Bool := x.timestamp ≤ y.timestamp

/-- Body of `GET /messages/{other_user_id}` (src/main.py `get_messages`):
query the pair's messages sorted by timestamp ascending with `limit(100)`;
`update_many` marking every unread message from the other user to the
requester as read (no limit); `update_one` resetting `unread_count` to 0 on
the first conversation matching the pair's or-filter (no-op when none
matches, since no upsert flag is passed). Returns the new store and the
queried page. -/
def get_messages (db : DB) (user_id other_user_id : String) : DB × List Message :=
  let page := ((db.messages.filter (matchesPair user_id other_user_id)).mergeSort tsLe).take 100
  let messages' := db.messages.map (fun m =>
    if m.sender_id == other_user_id && m.receiver_id == user_id && m.read == false
    then { m with read := true } else m)
  let convs' := updateFirst (pairPred user_id other_user_id) resetF db.conversations
  ({ db with messages := messages', conversations := convs' }, page)

/-- Combined application state: the store plus the WebSocket registry
(`manager` in src/main.py). -/
structure AppState where
  db : DB
  manager : Manager

/-- Endpoint `POST /messages/send` at the application level: the endpoint body only
reads and writes the collections; it never calls into the
`ConnectionManager` (the notification is merely returned in the response). -/
def send_message_app (s : AppState) (sender_id sender_name receiver_id content : String)
    (now : Nat) : AppState × Nat × Notification :=
  let r := send_message s.db sender_id sender_name receiver_id content now
  ({ s with db := r.1 }, r.2)

/-- One send request, for describing states reachable by sequential sends. -/
structure SendOp where
  sender_id : String
  sender_name : String
  receiver_id : String
  content : String
  now : Nat

def runSends (db : DB) (ops : List SendOp) : DB :=
  ops.foldl (fun d op => (send_message d op.sender_id op.sender_name op.receiver_id op.content op.now).1) db

/-- Number of conversation documents matching the unordered pair. -/
def countPair (db : DB) (a b : String) : Nat :=
  (db.conversations.filter (pairPred a b)).length

/-- Store well-formedness: conversation ids are distinct and below the
minting counter (Mongo guarantees `_id` uniqueness). -/
abbrev WFdb (db : DB) : Prop :=
  (db.conversations.map (fun c => c.cid)).Nodup ∧
  ∀ c ∈ db.conversations, c.cid < db.nextId

/-- The pair's unread counter as stored, if the pair has a conversation. -/
def unreadOf (db : DB) (a b : String) : Option Nat :=
  (findConversation db.conversations a b).map (fun c => c.unread_count)

/-- A run of identically-routed sends: each item is the content and server
timestamp of one `send_message` from `sender_id` to `receiver_id`. -/
def runSendsFrom (db : DB) (sender_id sender_name receiver_id : String)
    (items : List (String × Nat)) : DB :=
  items.foldl (fun d it => (send_message d sender_id sender_name receiver_id it.1 it.2).1) db

/-- One operation on the `ConnectionManager`, for describing reachable
registry states. -/
inductive MOp where
  | conn (user_id : String) (ch : Channel)
  | disc (user_id : String)
  | push (message : String) (user_id : String)
  | bcast (message : String)

def applyMOp (m : Manager) : MOp → Manager
  | .conn uid ch => connect m uid ch
  | .disc uid => disconnect m uid
  | .push msg uid => send_personal_message m msg uid
  | .bcast msg => broadcast m msg

def runMOps (m : Manager) (ops : List MOp) : Manager :=
  ops.foldl applyMOp m

/-- Concrete healthy channel used by the C1 counterexample. -/
def exChannel : Channel := { chanId := 7, healthy := true, received := [] }

/-- Concrete application state for the C1 counterexample: user B holds a
live, healthy channel; the store is empty. -/
def exState : AppState := { db := emptyDB, manager := [("B", exChannel)] }

/-- Concrete store used by the C2 witness: one conversation between A and B. -/
def dbWc2 : DB :=
  { messages := [],
    conversations := [{ cid := 0, participant1 := "A", participant2 := "B",
                        last_message := "hi", last_message_time := 1, unread_count := 1 }],
    nextId := 5 }

/-- Concrete store used by the C4 witness: three messages (two of the pair,
out of timestamp order, one unrelated) and the pair's conversation. -/
def dbWc4 : DB :=
  { messages :=
      [{ mid := 0, sender_id := "o", receiver_id := "u", content := "b",
         timestamp := 9, read := false },
       { mid := 1, sender_id := "u", receiver_id := "o", content := "a",
         timestamp := 3, read := false },
       { mid := 2, sender_id := "o", receiver_id := "z", content := "c",
         timestamp := 1, read := false }],
    conversations := [{ cid := 3, participant1 := "o", participant2 := "u",
                        last_message := "b", last_message_time := 9, unread_count := 1 }],
    nextId := 4 }

/-- A message of `dbWc4` sent by the requester of the C4 witness. -/
def msgWc4 : Message :=
  { mid := 1, sender_id := "u", receiver_id := "o", content := "a",
    timestamp := 3, read := false }

/-- Concrete store used by the C10 witness: 101 unread messages from user o
to user u, one more than the page size. -/
def dbWc10 : DB :=
  { messages := (List.range 101).map (fun i =>
      { mid := i, sender_id := "o", receiver_id := "u", content := "x",
        timestamp := i, read := false }),
    conversations := [],
    nextId := 101 }

/-- Concrete registry used by the C7 witness: the first entry's channel is
dead, the second is healthy. -/
def mWc7 : Manager :=
  [("a", { chanId := 1, healthy := false, received := [] }),
   ("b", { chanId := 2, healthy := true, received := [] })]

/-! ## Generic lemmas about the modelled Mongo `update_one` -/

theorem updateFirst_length (p : α → Bool) (f : α → α) :
    ∀ l : List α, (updateFirst p f l).length = l.length := by
  intro l
  induction l with
  | nil => rfl
  | cons x xs ih =>
    by_cases hx : p x <;> simp [updateFirst, hx, ih]

theorem updateFirst_of_find?_eq_none (p : α → Bool) (f : α → α) (l : List α)
    (h : l.find? p = none) : updateFirst p f l = l := by
  induction l with
  | nil => rfl
  | cons x xs ih =>
    rw [List.find?_cons] at h
    cases hx : p x with
    | true => simp [hx] at h
    | false =>
      simp only [hx] at h
      simp [updateFirst, hx, ih h]

theorem mem_updateFirst {p : α → Bool} {f : α → α} {l : List α} {y : α}
    (h : y ∈ updateFirst p f l) : ∃ x ∈ l, y = f x ∨ y = x := by
  induction l with
  | nil => simp [updateFirst] at h
  | cons x xs ih =>
    by_cases hx : p x
    · simp only [updateFirst, if_pos hx, List.mem_cons] at h
      rcases h with h | h
      · exact ⟨x, List.mem_cons_self x xs, Or.inl h⟩
      · exact ⟨y, List.mem_cons_of_mem x h, Or.inr rfl⟩
    · simp only [updateFirst, if_neg hx, List.mem_cons] at h
      rcases h with h | h
      · exact ⟨x, List.mem_cons_self x xs, Or.inr h⟩
      · obtain ⟨z, hz, hy⟩ := ih h
        exact ⟨z, List.mem_cons_of_mem x hz, hy⟩

theorem find?_updateFirst {p : α → Bool} {f : α → α} {l : List α} {c : α}
    (h : l.find? p = some c) (hf : p (f c) = true) :
    (updateFirst p f l).find? p = some (f c) := by
  induction l with
  | nil => simp at h
  | cons x xs ih =>
    by_cases hx : p x
    · rw [List.find?_cons_of_pos _ hx] at h
      obtain rfl : x = c := by injection h
      simp [updateFirst, hx, List.find?_cons_of_pos _ hf]
    · rw [List.find?_cons_of_neg _ hx] at h
      simp only [updateFirst, if_neg hx]
      rw [List.find?_cons_of_neg _ hx]
      exact ih h

theorem map_updateFirst (f : α → α) (g : α → β) (p : α → Bool) (l : List α)
    (h : ∀ x, g (f x) = g x) : (updateFirst p f l).map g = l.map g := by
  induction l with
  | nil => rfl
  | cons x xs ih =>
    by_cases hx : p x <;> simp [updateFirst, hx, ih, h]

theorem filter_updateFirst_length {f : α → α} (p q : α → Bool) (l : List α)
    (h : ∀ x, q (f x) = q x) :
    ((updateFirst p f l).filter q).length = (l.filter q).length := by
  induction l with
  | nil => rfl
  | cons x xs ih =>
    by_cases hx : p x
    · by_cases hq : q x <;> simp [updateFirst, hx, List.filter_cons, h, hq]
    · by_cases hq : q x <;> simp [updateFirst, hx, List.filter_cons, hq, ih]

/-! ## Lemmas about the pair filter -/

theorem pairPred_symm (a b : String) : pairPred a b = pairPred b a := by
  funext c
  simp [pairPred, Bool.or_comm]

theorem findConversation_symm (convs : List Conversation) (a b : String) :
    findConversation convs a b = findConversation convs b a := by
  unfold findConversation
  rw [pairPred_symm]

theorem pairPred_of_participants {a b : String} {c : Conversation}
    (h : pairPred a b c = true) :
    pairPred a b = pairPred c.participant1 c.participant2 := by
  simp only [pairPred, Bool.or_eq_true, Bool.and_eq_true, beq_iff_eq] at h
  rcases h with ⟨h1, h2⟩ | ⟨h1, h2⟩
  · rw [h1, h2]
  · rw [h1, h2, pairPred_symm]

theorem pairPred_updF (a b : String) (content : String) (now : Nat) (c : Conversation) :
    pairPred a b (updF content now c) = pairPred a b c := rfl

theorem pairPred_resetF (a b : String) (c : Conversation) :
    pairPred a b (resetF c) = pairPred a b c := rfl

theorem pairPred_freshConv_self (cid : Nat) (s r content : String) (now : Nat) :
    pairPred s r (freshConv cid s r content now) = true := by
  simp [pairPred, freshConv]

/-! ## Structural lemmas about `send_message` -/

theorem send_message_some {db : DB} {s r : String} {conv : Conversation}
    (n cnt : String) (t : Nat)
    (h : findConversation db.conversations s r = some conv) :
    (send_message db s n r cnt t).1.conversations
      = updateFirst (fun c => c.cid == conv.cid) (updF cnt t) db.conversations ∧
    (send_message db s n r cnt t).1.nextId = db.nextId + 1 := by
  simp [send_message, h]

theorem send_message_none {db : DB} {s r : String} (n cnt : String) (t : Nat)
    (h : findConversation db.conversations s r = none) :
    (send_message db s n r cnt t).1.conversations
      = db.conversations ++ [freshConv (db.nextId + 1) s r cnt t] ∧
    (send_message db s n r cnt t).1.nextId = db.nextId + 2 := by
  simp [send_message, h]

theorem countPair_send_message {db : DB} (s n r cnt : String) (t : Nat) (a b : String)
    (hle : countPair db a b ≤ 1) :
    countPair (send_message db s n r cnt t).1 a b ≤ 1 := by
  cases h : findConversation db.conversations s r with
  | some conv =>
    unfold countPair
    rw [(send_message_some n cnt t h).1,
      filter_updateFirst_length _ _ _ (pairPred_updF a b cnt t)]
    exact hle
  | none =>
    unfold countPair
    rw [(send_message_none n cnt t h).1, List.filter_append, List.length_append]
    by_cases hp : pairPred a b (freshConv (db.nextId + 1) s r cnt t) = true
    · have hparts : pairPred a b = pairPred s r := by
        simpa [freshConv] using pairPred_of_participants hp
      have hnil : db.conversations.filter (pairPred a b) = [] := by
        rw [hparts]
        rw [List.filter_eq_nil_iff]
        intro c hc
        exact (List.find?_eq_none.mp h) c hc
      simp [hnil, hp]
    · have hp' : pairPred a b (freshConv (db.nextId + 1) s r cnt t) = false :=
        Bool.eq_false_iff.mpr hp
      unfold countPair at hle
      simp [hp']
      omega

theorem find?_updateFirst_cid {l : List Conversation} {q : Conversation → Bool}
    {c : Conversation} {f : Conversation → Conversation}
    (hnd : (l.map (fun x => x.cid)).Nodup)
    (h : l.find? q = some c) (hq : q (f c) = true) :
    (updateFirst (fun x => x.cid == c.cid) f l).find? q = some (f c) := by
  induction l with
  | nil => simp at h
  | cons d rest ih =>
    by_cases hd : q d
    · rw [List.find?_cons_of_pos _ hd] at h
      obtain rfl : d = c := by injection h
      simp only [updateFirst, beq_self_eq_true, if_pos]
      exact List.find?_cons_of_pos _ hq
    · rw [List.find?_cons_of_neg _ hd] at h
      have hc_mem : c ∈ rest := List.mem_of_find?_eq_some h
      have hne : d.cid ≠ c.cid := by
        intro he
        have : d.cid ∈ rest.map (fun x => x.cid) := he ▸ List.mem_map_of_mem _ hc_mem
        exact (List.nodup_cons.mp hnd).1 this
      have hbeq : (d.cid == c.cid) = false := by simpa using hne
      simp only [updateFirst, hbeq, Bool.false_eq_true, if_false]
      rw [List.find?_cons_of_neg _ hd]
      exact ih (List.nodup_cons.mp hnd).2 h

theorem WFdb_send {db : DB} (s n r cnt : String) (t : Nat) (hwf : WFdb db) :
    WFdb (send_message db s n r cnt t).1 := by
  obtain ⟨hnd, hlt⟩ := hwf
  cases h : findConversation db.conversations s r with
  | some conv =>
    obtain ⟨hconvs, hnext⟩ := send_message_some n cnt t h
    constructor
    · rw [hconvs, map_updateFirst (updF cnt t) (fun c => c.cid) _ _ (fun x => rfl)]
      exact hnd
    · intro c hc
      rw [hconvs] at hc
      obtain ⟨x, hx, hcx⟩ := mem_updateFirst hc
      rw [hnext]
      have hxlt := hlt x hx
      rcases hcx with rfl | rfl
      · simpa [updF] using Nat.lt_succ_of_lt hxlt
      · exact Nat.lt_succ_of_lt hxlt
  | none =>
    obtain ⟨hconvs, hnext⟩ := send_message_none n cnt t h
    constructor
    · rw [hconvs, List.map_append]
      rw [List.nodup_append]
      refine ⟨hnd, by simp, ?_⟩
      intro x hx hx'
      simp only [List.map_cons, List.map_nil, List.mem_cons, List.not_mem_nil,
        or_false, freshConv] at hx'
      obtain ⟨cc, hcc, rfl⟩ := List.mem_map.mp hx
      have := hlt cc hcc
      omega
    · intro c hc
      rw [hconvs] at hc
      rw [hnext]
      rcases List.mem_append.mp hc with hc | hc
      · have := hlt c hc
        omega
      · simp only [List.mem_cons, List.not_mem_nil, or_false] at hc
        subst hc
        simp [freshConv]

theorem send_step_create {db : DB} {s r : String} (n cnt : String) (t : Nat)
    (h : findConversation db.conversations s r = none) :
    findConversation (send_message db s n r cnt t).1.conversations s r
      = some (freshConv (db.nextId + 1) s r cnt t) := by
  rw [findConversation, (send_message_none n cnt t h).1, List.find?_append]
  rw [findConversation] at h
  rw [h]
  simp [List.find?_cons_of_pos _ (pairPred_freshConv_self (db.nextId + 1) s r cnt t)]

theorem send_step_inc {db : DB} {s r : String} {c : Conversation} (n cnt : String) (t : Nat)
    (hwf : WFdb db) (h : findConversation db.conversations s r = some c) :
    findConversation (send_message db s n r cnt t).1.conversations s r
      = some (updF cnt t c) := by
  rw [findConversation, (send_message_some n cnt t h).1]
  have hq : pairPred s r (updF cnt t c) = true := by
    rw [pairPred_updF]
    exact List.find?_some h
  exact find?_updateFirst_cid hwf.1 h hq

theorem runSendsFrom_inc (s n r : String) :
    ∀ (items : List (String × Nat)) (db : DB) (c : Conversation),
      WFdb db → findConversation db.conversations s r = some c →
      ∃ c', findConversation (runSendsFrom db s n r items).conversations s r = some c' ∧
            c'.unread_count = c.unread_count + items.length ∧
            WFdb (runSendsFrom db s n r items) := by
  intro items
  induction items with
  | nil =>
    intro db c hwf h
    exact ⟨c, h, by simp [runSendsFrom], hwf⟩
  | cons it rest ih =>
    intro db c hwf h
    have hstep : runSendsFrom db s n r (it :: rest)
        = runSendsFrom (send_message db s n r it.1 it.2).1 s n r rest := rfl
    have hwf1 := WFdb_send s n r it.1 it.2 hwf
    have h1 := send_step_inc n it.1 it.2 hwf h
    obtain ⟨c', hc', hcount, hwf'⟩ := ih (send_message db s n r it.1 it.2).1 (updF it.1 it.2 c) hwf1 h1
    refine ⟨c', by rw [hstep]; exact hc', ?_, by rw [hstep]; exact hwf'⟩
    rw [hcount]
    simp [updF]
    omega

theorem reset_after {convs : List Conversation} {a b : String} {c : Conversation}
    (h : findConversation convs a b = some c) :
    findConversation (updateFirst (pairPred a b) resetF convs) a b = some (resetF c) := by
  apply find?_updateFirst h
  rw [pairPred_resetF]
  exact List.find?_some h

theorem countPair_runSends {ops : List SendOp} :
    ∀ db : DB, (∀ a b, countPair db a b ≤ 1) →
      ∀ a b, countPair (runSends db ops) a b ≤ 1 := by
  induction ops with
  | nil => intro db h a b; exact h a b
  | cons op rest ih =>
    intro db h a b
    exact ih _ (fun a' b' =>
      countPair_send_message op.sender_id op.sender_name op.receiver_id
        op.content op.now a' b' (h a' b')) a b

/-! ## Lemmas about the connection registry -/

theorem lookup_map_set (uid : String) (ch : Channel) :
    ∀ m : Manager, m.any (fun q => q.1 == uid) = true →
      lookup (m.map (fun q => if q.1 == uid then (uid, ch) else q)) uid = some ch := by
  intro m
  induction m with
  | nil => simp
  | cons p rest ih =>
    intro hany
    by_cases hp : (p.1 == uid) = true
    · simp only [List.map_cons, if_pos hp]
      rw [lookup, List.find?_cons]
      simp
    · have ha : rest.any (fun q => q.1 == uid) = true := by
        simpa [List.any_cons, hp] using hany
      simp only [List.map_cons, if_neg hp]
      rw [lookup, List.find?_cons_of_neg _ (by simpa using hp)]
      exact ih ha

theorem find?_key_eq_none {m : Manager} {uid : String}
    (hany : ¬ m.any (fun q => q.1 == uid) = true) :
    m.find? (fun q => q.1 == uid) = none := by
  rw [List.find?_eq_none]
  intro x hx hc
  exact hany (List.any_eq_true.mpr ⟨x, hx, hc⟩)

theorem lookup_connect (m : Manager) (uid : String) (ch : Channel) :
    lookup (connect m uid ch) uid = some ch := by
  by_cases hany : m.any (fun q => q.1 == uid) = true
  · rw [connect, if_pos hany]
    exact lookup_map_set uid ch m hany
  · rw [connect, if_neg hany, lookup, List.find?_append, find?_key_eq_none hany]
    simp

theorem lookup_disconnect_self (m : Manager) (uid : String) :
    lookup (disconnect m uid) uid = none := by
  have h : (disconnect m uid).find? (fun q => q.1 == uid) = none := by
    rw [List.find?_eq_none]
    intro x hx hc
    have hne := (List.mem_filter.mp hx).2
    simp [bne, hc] at hne
  rw [lookup, h]
  rfl

theorem spm_not_connected {m : Manager} {uid : String} (msg : String)
    (h : lookup m uid = none) :
    send_personal_message m msg uid = m := by
  rw [lookup] at h
  have hf : m.find? (fun q => q.1 == uid) = none := by
    cases hf : m.find? (fun q => q.1 == uid)
    · rfl
    · rw [hf] at h; simp at h
  simp [send_personal_message, hf]

theorem spm_lookup_some {m : Manager} {uid : String} {ch : Channel} (msg : String)
    (h : lookup m uid = some ch) :
    send_personal_message m msg uid =
      if ch.healthy then
        m.map (fun p => if p.1 == uid
          then (uid, { ch with received := ch.received ++ [msg] }) else p)
      else disconnect m uid := by
  rw [lookup] at h
  obtain ⟨entry, hfind, hsnd⟩ := Option.map_eq_some'.mp h
  simp only [send_personal_message, hfind, hsnd, sendText]
  by_cases hh : ch.healthy = true <;> simp [hh]

theorem any_of_lookup_some {m : Manager} {uid : String} {ch : Channel}
    (h : lookup m uid = some ch) : m.any (fun q => q.1 == uid) = true := by
  rw [lookup] at h
  obtain ⟨entry, hfind, _⟩ := Option.map_eq_some'.mp h
  have hp := List.find?_some hfind
  exact List.any_eq_true.mpr ⟨entry, List.mem_of_find?_eq_some hfind, hp⟩

theorem keysOf_map_set (m : Manager) (uid : String) (ch : Channel) :
    keysOf (m.map (fun q => if q.1 == uid then (uid, ch) else q)) = keysOf m := by
  unfold keysOf
  rw [List.map_map]
  apply List.map_congr_left
  intro p _
  by_cases hp : (p.1 == uid) = true
  · simp only [Function.comp, hp, if_pos]
    exact (eq_of_beq hp).symm
  · simp [Function.comp, hp]

theorem nodup_connect {m : Manager} (uid : String) (ch : Channel)
    (h : NodupKeys m) : NodupKeys (connect m uid ch) := by
  by_cases hany : m.any (fun q => q.1 == uid) = true
  · unfold NodupKeys
    rw [connect, if_pos hany, keysOf_map_set]
    exact h
  · unfold NodupKeys
    rw [connect, if_neg hany]
    unfold keysOf
    rw [List.map_append]
    rw [List.nodup_append]
    refine ⟨h, by simp, ?_⟩
    intro x hx hx'
    simp only [List.map_cons, List.map_nil, List.mem_cons, List.not_mem_nil, or_false] at hx'
    subst hx'
    obtain ⟨p, hp, rfl⟩ := List.mem_map.mp hx
    exact hany (List.any_eq_true.mpr ⟨p, hp, by simp⟩)

theorem nodup_disconnect {m : Manager} (uid : String)
    (h : NodupKeys m) : NodupKeys (disconnect m uid) := by
  unfold NodupKeys keysOf at h
  unfold NodupKeys keysOf disconnect
  exact List.Nodup.sublist ((List.filter_sublist m).map (fun p => p.1)) h

theorem nodup_spm {m : Manager} (msg uid : String)
    (h : NodupKeys m) : NodupKeys (send_personal_message m msg uid) := by
  cases hl : lookup m uid with
  | none =>
    rw [spm_not_connected msg hl]
    exact h
  | some ch =>
    rw [spm_lookup_some msg hl]
    by_cases hh : ch.healthy = true
    · rw [if_pos hh]
      unfold NodupKeys
      rw [keysOf_map_set]
      exact h
    · rw [if_neg hh]
      exact nodup_disconnect uid h

/-! ## Lemmas about `broadcast` -/

theorem passStep_healthy {p : String × Channel} (message : String)
    (acc : Manager × List String) (hh : p.2.healthy = true) :
    passStep message acc p
      = (acc.1 ++ [(p.1, { p.2 with received := p.2.received ++ [message] })], acc.2) := by
  simp [passStep, sendText, hh]

theorem passStep_dead {p : String × Channel} (message : String)
    (acc : Manager × List String) (hh : ¬ p.2.healthy = true) :
    passStep message acc p = (acc.1 ++ [p], acc.2 ++ [p.1]) := by
  simp [passStep, sendText, hh]

theorem broadcast_pass (message : String) :
    ∀ (m : Manager) (a1 : Manager) (a2 : List String),
      m.foldl (passStep message) (a1, a2)
      = (a1 ++ m.map (fun p =>
            if p.2.healthy
            then (p.1, { p.2 with received := p.2.received ++ [message] })
            else p),
         a2 ++ keysOf (m.filter (fun p => !p.2.healthy))) := by
  intro m
  induction m with
  | nil => intro a1 a2; simp [keysOf]
  | cons p rest ih =>
    intro a1 a2
    by_cases hh : p.2.healthy = true
    · rw [List.foldl_cons, passStep_healthy message (a1, a2) hh, ih]
      simp [keysOf, List.filter_cons, hh]
    · rw [List.foldl_cons, passStep_dead message (a1, a2) hh, ih]
      have hh' : (!p.2.healthy) = true := by simp [hh]
      simp [keysOf, List.filter_cons, hh, hh']

theorem disconnect_foldl :
    ∀ (ks : List String) (l : Manager),
      ks.foldl (fun mm uid => disconnect mm uid) l
        = l.filter (fun p => !(ks.contains p.1)) := by
  intro ks
  induction ks with
  | nil => intro l; simp
  | cons k ks ih =>
    intro l
    simp only [List.foldl_cons]
    rw [ih (disconnect l k), disconnect, List.filter_filter]
    apply List.filter_congr
    intro p _
    rw [List.contains_cons, Bool.not_or]
    exact Bool.and_comm _ _

theorem keysOf_map_push (message : String) (m : Manager) :
    keysOf (m.map (fun p =>
      if p.2.healthy
      then (p.1, { p.2 with received := p.2.received ++ [message] })
      else p)) = keysOf m := by
  unfold keysOf
  rw [List.map_map]
  apply List.map_congr_left
  intro p _
  by_cases hh : p.2.healthy = true <;> simp [Function.comp, hh]

theorem mem_keysOf_filter {m : Manager} {q : String × Channel → Bool} {x : String}
    (h : x ∈ keysOf (m.filter q)) : x ∈ keysOf m := by
  unfold keysOf at h ⊢
  obtain ⟨p, hp, rfl⟩ := List.mem_map.mp h
  exact List.mem_map_of_mem _ (List.mem_of_mem_filter hp)

theorem filter_map_surviving (message : String) :
    ∀ m : Manager, NodupKeys m →
      ((m.map (fun p =>
          if p.2.healthy
          then (p.1, { p.2 with received := p.2.received ++ [message] })
          else p)).filter
        (fun p => !((keysOf (m.filter (fun q => !q.2.healthy))).contains p.1)))
      = (m.filter (fun p => p.2.healthy)).map
          (fun p => (p.1, { p.2 with received := p.2.received ++ [message] })) := by
  intro m
  induction m with
  | nil => intro _; simp
  | cons p rest ih =>
    intro hnd
    have hnd0 := List.nodup_cons.mp hnd
    have hnd' : NodupKeys rest := hnd0.2
    have hp_notin : p.1 ∉ keysOf rest := hnd0.1
    by_cases hh : p.2.healthy = true
    · have hfb : (p :: rest).filter (fun q => !q.2.healthy)
          = rest.filter (fun q => !q.2.healthy) := by
        simp [List.filter_cons, hh]
      rw [hfb]
      simp only [List.map_cons, if_pos hh]
      have hnotbad : ((keysOf (rest.filter (fun q => !q.2.healthy))).contains p.1) = false := by
        cases hx : (keysOf (rest.filter (fun q => !q.2.healthy))).contains p.1 with
        | false => rfl
        | true =>
          have hmem : p.1 ∈ keysOf (rest.filter (fun q => !q.2.healthy)) :=
            List.elem_iff.mp hx
          exact absurd (mem_keysOf_filter hmem) hp_notin
      rw [List.filter_cons]
      simp only [hnotbad, Bool.not_false, if_pos]
      rw [List.filter_cons]
      simp only [hh, if_pos]
      rw [List.map_cons]
      rw [ih hnd']
      simp [hh]
    · have hfb : (p :: rest).filter (fun q => !q.2.healthy)
          = p :: rest.filter (fun q => !q.2.healthy) := by
        simp [List.filter_cons, hh]
      rw [hfb]
      simp only [List.map_cons, if_neg hh]
      have hkeys : keysOf (p :: rest.filter (fun q => !q.2.healthy))
          = p.1 :: keysOf (rest.filter (fun q => !q.2.healthy)) := rfl
      rw [hkeys, List.filter_cons]
      have hself : ((p.1 :: keysOf (rest.filter (fun q => !q.2.healthy))).contains p.1)
          = true := by
        apply List.elem_iff.mpr
        exact List.mem_cons_self _ _
      simp only [hself, Bool.not_true, Bool.false_eq_true, if_false]
      rw [List.filter_cons]
      simp only [hh, Bool.false_eq_true, if_false]
      rw [← ih hnd']
      apply List.filter_congr
      intro q hq
      obtain ⟨p0, hp0, rfl⟩ := List.mem_map.mp hq
      have hq1 : (if p0.2.healthy
          then (p0.1, { p0.2 with received := p0.2.received ++ [message] })
          else p0).1 = p0.1 := by
        by_cases hp0h : p0.2.healthy = true <;> simp [hp0h]
      have hne : p0.1 ≠ p.1 := by
        intro he
        exact hp_notin (he ▸ List.mem_map_of_mem _ hp0)
      have hbeq : (p0.1 == p.1) = false := by simpa using hne
      rw [hq1, List.contains_cons, hbeq, Bool.false_or]

theorem broadcast_spec (m : Manager) (message : String) (h : NodupKeys m) :
    broadcast m message
      = (m.filter (fun p => p.2.healthy)).map
          (fun p => (p.1, { p.2 with received := p.2.received ++ [message] })) := by
  unfold broadcast
  rw [broadcast_pass message m [] []]
  simp only [List.nil_append]
  rw [disconnect_foldl]
  exact filter_map_surviving message m h

theorem nodup_broadcast {m : Manager} (message : String)
    (h : NodupKeys m) : NodupKeys (broadcast m message) := by
  rw [broadcast_spec m message h]
  unfold NodupKeys keysOf
  rw [List.map_map]
  have hmk : (List.map ((fun p : String × Channel => p.1) ∘
      (fun p : String × Channel =>
        (p.1, { p.2 with received := p.2.received ++ [message] })))
      (m.filter (fun p => p.2.healthy)))
      = List.map (fun p : String × Channel => p.1) (m.filter (fun p => p.2.healthy)) := by
    apply List.map_congr_left
    intro p _
    rfl
  rw [hmk]
  exact List.Nodup.sublist ((List.filter_sublist m).map (fun p => p.1)) h

theorem nodup_runMOps :
    ∀ (ops : List MOp) (m : Manager), NodupKeys m → NodupKeys (runMOps m ops) := by
  intro ops
  induction ops with
  | nil => intro m h; exact h
  | cons op rest ih =>
    intro m h
    have hstep : NodupKeys (applyMOp m op) := by
      cases op with
      | conn uid ch => exact nodup_connect uid ch h
      | disc uid => exact nodup_disconnect uid h
      | push msg uid => exact nodup_spm msg uid h
      | bcast msg => exact nodup_broadcast msg h
    exact ih (applyMOp m op) hstep

/-! ## Lemmas about `get_messages` -/

theorem get_messages_eq (db : DB) (u o : String) :
    get_messages db u o =
      ({ db with
          messages := db.messages.map (fun m =>
            if m.sender_id == o && m.receiver_id == u && m.read == false
            then { m with read := true } else m),
          conversations := updateFirst (pairPred u o) resetF db.conversations },
       ((db.messages.filter (matchesPair u o)).mergeSort tsLe).take 100) := rfl

theorem updateFirst_resetF_all {u o : String} :
    ∀ convs : List Conversation, (convs.filter (pairPred u o)).length ≤ 1 →
      ∀ c ∈ updateFirst (pairPred u o) resetF convs,
        pairPred u o c = true → c.unread_count = 0 := by
  intro convs
  induction convs with
  | nil =>
    intro _ c hc
    simp [updateFirst] at hc
  | cons x xs ih =>
    intro hle c hc hcp
    by_cases hx : pairPred u o x = true
    · simp only [updateFirst, hx, if_pos] at hc
      rcases List.mem_cons.mp hc with rfl | hc'
      · simp [resetF]
      · exfalso
        rw [List.filter_cons, if_pos hx] at hle
        simp only [List.length_cons] at hle
        have hnil : xs.filter (pairPred u o) = [] := by
          rw [← List.length_eq_zero]
          omega
        exact (List.filter_eq_nil_iff.mp hnil) c hc' hcp
    · simp only [updateFirst, hx, Bool.false_eq_true, if_false] at hc
      rcases List.mem_cons.mp hc with rfl | hc'
      · exact absurd hcp hx
      · have hle' : (xs.filter (pairPred u o)).length ≤ 1 := by
          rw [List.filter_cons] at hle
          by_cases hx2 : pairPred u o x = true
          · exact absurd hx2 hx
          · simpa [hx2] using hle
        exact ih hle' c hc' hcp

/-! ## Claim theorems -/

/-- C9. `disconnect` is idempotent: applying it twice equals applying it
once, and on an identity with no registered channel it leaves the registry
unchanged (and, being a total function, raises no error). -/
theorem disconnect_idempotent (m : Manager) (uid : String) :
    disconnect (disconnect m uid) uid = disconnect m uid ∧
    (lookup m uid = none → disconnect m uid = m) := by
  constructor
  · unfold disconnect
    rw [List.filter_filter]
    apply List.filter_congr
    intro p _
    exact Bool.and_self _
  · intro h
    unfold disconnect
    rw [List.filter_eq_self]
    intro p hp
    have hf : m.find? (fun q => q.1 == uid) = none := by
      cases hf : m.find? (fun q => q.1 == uid)
      · rfl
      · rw [lookup, hf] at h; simp at h
    have hne := List.find?_eq_none.mp hf p hp
    have hff : (p.1 == uid) = false := Bool.eq_false_iff.mpr hne
    simp [bne, hff]

/-- Witness for C9 at a concrete registry: disconnecting the never-connected
identity z twice or once leaves `mWc7` unchanged. -/
theorem disconnect_idempotent_witness :
    (disconnect (disconnect mWc7 "z") "z" = disconnect mWc7 "z" ∧
      lookup mWc7 "z" = none) ∧ disconnect mWc7 "z" = mWc7 :=
  ⟨⟨(disconnect_idempotent mWc7 "z").1, by decide⟩,
    (disconnect_idempotent mWc7 "z").2 (by decide)⟩

/-- C8. When the pair has no conversation document, the read-reset performed
by `get_messages` leaves the conversations collection unchanged: no document
is fabricated and, being a total function, nothing is raised. -/
theorem read_reset_no_fabrication (db : DB) (u o : String)
    (h : findConversation db.conversations u o = none) :
    (get_messages db u o).1.conversations = db.conversations := by
  simp only [get_messages_eq]
  exact updateFirst_of_find?_eq_none _ _ _ h

/-- Witness for C8: the store has an A-B conversation but none for the X-Y
pair; fetching history for X-Y leaves the collection unchanged. -/
theorem read_reset_no_fabrication_witness :
    findConversation dbWc2.conversations "X" "Y" = none ∧
    (get_messages dbWc2 "X" "Y").1.conversations = dbWc2.conversations :=
  ⟨by decide, read_reset_no_fabrication dbWc2 "X" "Y" (by decide)⟩

/-- C6. `send_personal_message` on an unregistered identity is a silent
no-op (registry unchanged, payload dropped, no error — the function is
total); on a registered identity whose delivery fails, the failure is
swallowed and the identity is disconnected. -/
theorem send_to_error_handling (m : Manager) (msg uid : String) :
    (lookup m uid = none → send_personal_message m msg uid = m) ∧
    (∀ ch : Channel, lookup m uid = some ch → ch.healthy = false →
      send_personal_message m msg uid = disconnect m uid) := by
  constructor
  · intro h
    exact spm_not_connected msg h
  · intro ch h hh
    rw [spm_lookup_some msg h, if_neg (by simp [hh])]

/-- Witness for C6: identity z is not registered, so the push is a no-op on
`mWc7`; identity a holds a dead channel, so the push disconnects a. -/
theorem send_to_error_handling_witness :
    (lookup mWc7 "z" = none ∧ send_personal_message mWc7 "x" "z" = mWc7) ∧
    (lookup mWc7 "a" = some { chanId := 1, healthy := false, received := [] } ∧
      send_personal_message mWc7 "x" "a" = disconnect mWc7 "a") :=
  ⟨⟨by decide, (send_to_error_handling mWc7 "x" "z").1 (by decide)⟩,
   ⟨by decide, (send_to_error_handling mWc7 "x" "a").2
      { chanId := 1, healthy := false, received := [] } (by decide) rfl⟩⟩

/-- C7. `broadcast` attempts delivery to every registered identity of the
starting registry: the resulting registry keeps exactly the identities whose
channel is healthy, each with the payload appended to its delivery log, and
drops exactly the failed ones — so an early failure neither prevents later
deliveries nor mutates the mapping during the pass. -/
theorem broadcast_all_attempted (m : Manager) (message : String) (h : NodupKeys m) :
    broadcast m message
      = (m.filter (fun p => p.2.healthy)).map
          (fun p => (p.1, { p.2 with received := p.2.received ++ [message] })) :=
  broadcast_spec m message h

/-- Witness for C7: in `mWc7` the first channel is dead and the second
healthy; the healthy one still receives the payload and only the dead one is
evicted. -/
theorem broadcast_all_attempted_witness :
    NodupKeys mWc7 ∧
    broadcast mWc7 "x" = [("b", { chanId := 2, healthy := true, received := ["x"] })] :=
  ⟨by decide, (broadcast_all_attempted mWc7 "x" (by decide)).trans (by decide)⟩

/-- C5. The registry maps each identity to at most one channel in every
state reachable from the empty registry; `connect` on an already-registered
identity overwrites the entry without error; and after replacing the entry,
a push for that identity targets only the new channel — whatever the push
outcome, the entry can never revert to the replaced channel. -/
theorem registry_single_channel :
    (∀ ops : List MOp, NodupKeys (runMOps [] ops)) ∧
    (∀ (m : Manager) (uid : String) (ch : Channel),
      lookup (connect m uid ch) uid = some ch) ∧
    (∀ (m : Manager) (uid : String) (ch1 ch2 : Channel) (msg : String) (ch' : Channel),
      ch1.chanId ≠ ch2.chanId →
      lookup (send_personal_message (connect (connect m uid ch1) uid ch2) msg uid) uid
        = some ch' →
      ch'.chanId = ch2.chanId ∧ ch'.chanId ≠ ch1.chanId) := by
  refine ⟨?_, ?_, ?_⟩
  · intro ops
    exact nodup_runMOps ops [] List.nodup_nil
  · intro m uid ch
    exact lookup_connect m uid ch
  · intro m uid ch1 ch2 msg ch' hne hl
    have h2 : lookup (connect (connect m uid ch1) uid ch2) uid = some ch2 :=
      lookup_connect _ uid ch2
    rw [spm_lookup_some msg h2] at hl
    by_cases hh : ch2.healthy = true
    · rw [if_pos hh] at hl
      rw [lookup_map_set uid { ch2 with received := ch2.received ++ [msg] } _
        (any_of_lookup_some h2)] at hl
      obtain rfl : ({ ch2 with received := ch2.received ++ [msg] } : Channel) = ch' := by
        injection hl
      exact ⟨rfl, fun he => hne (he ▸ rfl)⟩
    · rw [if_neg hh, lookup_disconnect_self] at hl
      exact absurd hl (by simp)

/-- Witness for C5: reconnecting identity A replaces channel 1 with channel
2; a push then reaches only channel 2. -/
theorem registry_single_channel_witness :
    NodupKeys (runMOps []
      [MOp.conn "A" { chanId := 1, healthy := true, received := [] },
       MOp.conn "A" { chanId := 2, healthy := true, received := [] }]) ∧
    lookup (connect [] "A" { chanId := 2, healthy := true, received := [] }) "A"
      = some { chanId := 2, healthy := true, received := [] } ∧
    ({ chanId := 1, healthy := true, received := [] } : Channel).chanId
      ≠ ({ chanId := 2, healthy := true, received := [] } : Channel).chanId ∧
    lookup (send_personal_message
        (connect (connect [] "A" { chanId := 1, healthy := true, received := [] })
          "A" { chanId := 2, healthy := true, received := [] }) "x" "A") "A"
      = some { chanId := 2, healthy := true, received := ["x"] } ∧
    (({ chanId := 2, healthy := true, received := ["x"] } : Channel).chanId
        = ({ chanId := 2, healthy := true, received := [] } : Channel).chanId ∧
      ({ chanId := 2, healthy := true, received := ["x"] } : Channel).chanId
        ≠ ({ chanId := 1, healthy := true, received := [] } : Channel).chanId) :=
  ⟨registry_single_channel.1
      [MOp.conn "A" { chanId := 1, healthy := true, received := [] },
       MOp.conn "A" { chanId := 2, healthy := true, received := [] }],
   registry_single_channel.2.1 [] "A" { chanId := 2, healthy := true, received := [] },
   by decide, by decide,
   registry_single_channel.2.2 [] "A"
     { chanId := 1, healthy := true, received := [] }
     { chanId := 2, healthy := true, received := [] } "x"
     { chanId := 2, healthy := true, received := ["x"] } (by decide) (by decide)⟩

/-- C2. Starting from the empty store, every state reachable by sequential
sends has at most one conversation document per unordered pair; the pair
lookup is order-independent; and a send that finds an existing document for
the pair updates it in place, changing neither the collection's size nor any
pair's document count. -/
theorem conversation_pair_unique :
    (∀ (ops : List SendOp) (a b : String), countPair (runSends emptyDB ops) a b ≤ 1) ∧
    (∀ (convs : List Conversation) (a b : String),
      findConversation convs a b = findConversation convs b a) ∧
    (∀ (db : DB) (s n r cnt : String) (t : Nat) (conv : Conversation),
      findConversation db.conversations s r = some conv →
      (send_message db s n r cnt t).1.conversations.length = db.conversations.length ∧
      ∀ a b, countPair (send_message db s n r cnt t).1 a b = countPair db a b) := by
  refine ⟨?_, ?_, ?_⟩
  · intro ops a b
    exact countPair_runSends emptyDB (fun a' b' => by simp [countPair, emptyDB]) a b
  · intro convs a b
    exact findConversation_symm convs a b
  · intro db s n r cnt t conv h
    constructor
    · rw [(send_message_some n cnt t h).1, updateFirst_length]
    · intro a b
      unfold countPair
      rw [(send_message_some n cnt t h).1,
        filter_updateFirst_length _ _ _ (pairPred_updF a b cnt t)]

/-- Witness for C2: the store holds the conversation created by an A-to-B
send; a B-to-A send finds it (reversed lookup) and updates in place. -/
theorem conversation_pair_unique_witness :
    countPair (runSends emptyDB
      [{ sender_id := "A", sender_name := "Alice", receiver_id := "B",
         content := "hi", now := 1 },
       { sender_id := "B", sender_name := "Bob", receiver_id := "A",
         content := "yo", now := 2 }]) "A" "B" ≤ 1 ∧
    findConversation dbWc2.conversations "B" "A" = some
      { cid := 0, participant1 := "A", participant2 := "B",
        last_message := "hi", last_message_time := 1, unread_count := 1 } ∧
    (send_message dbWc2 "B" "Bob" "A" "yo" 2).1.conversations.length
      = dbWc2.conversations.length ∧
    countPair (send_message dbWc2 "B" "Bob" "A" "yo" 2).1 "A" "B"
      = countPair dbWc2 "A" "B" :=
  ⟨conversation_pair_unique.1
      [{ sender_id := "A", sender_name := "Alice", receiver_id := "B",
         content := "hi", now := 1 },
       { sender_id := "B", sender_name := "Bob", receiver_id := "A",
         content := "yo", now := 2 }] "A" "B",
   by decide,
   (conversation_pair_unique.2.2 dbWc2 "B" "Bob" "A" "yo" 2
      { cid := 0, participant1 := "A", participant2 := "B",
        last_message := "hi", last_message_time := 1, unread_count := 1 }
      (by decide)).1,
   (conversation_pair_unique.2.2 dbWc2 "B" "Bob" "A" "yo" 2
      { cid := 0, participant1 := "A", participant2 := "B",
        last_message := "hi", last_message_time := 1, unread_count := 1 }
      (by decide)).2 "A" "B"⟩

/-- C3. From a well-formed store with no conversation for the pair, n ≥ 1
sends from B to A leave the pair's unread counter at exactly n (the first
send creates the document at 1, each later send adds 1); a history fetch by
A with B then resets it to 0. -/
theorem unread_counter_counts_sends (db : DB) (b bn a : String)
    (items : List (String × Nat)) (hwf : WFdb db)
    (h0 : findConversation db.conversations b a = none) (hne : items ≠ []) :
    unreadOf (runSendsFrom db b bn a items) b a = some items.length ∧
    unreadOf ((get_messages (runSendsFrom db b bn a items) a b).1) b a = some 0 := by
  obtain ⟨it, rest, rfl⟩ := List.exists_cons_of_ne_nil hne
  have hstep : runSendsFrom db b bn a (it :: rest)
      = runSendsFrom (send_message db b bn a it.1 it.2).1 b bn a rest := rfl
  have hwf1 := WFdb_send b bn a it.1 it.2 hwf
  have h1 := send_step_create bn it.1 it.2 h0
  obtain ⟨c', hc', hcount, hwf'⟩ :=
    runSendsFrom_inc b bn a rest (send_message db b bn a it.1 it.2).1
      (freshConv (db.nextId + 1) b a it.1 it.2) hwf1 h1
  have hlen : c'.unread_count = (it :: rest).length := by
    rw [hcount]
    simp [freshConv]
    omega
  constructor
  · rw [hstep]
    simp [unreadOf, hc', hlen]
  · have hsym : findConversation
        (runSendsFrom (send_message db b bn a it.1 it.2).1 b bn a rest).conversations a b
        = some c' := by
      rw [findConversation_symm]
      exact hc'
    have hreset := reset_after hsym
    rw [hstep]
    simp only [unreadOf, get_messages_eq]
    rw [findConversation_symm _ b a, hreset]
    rfl

/-- Witness for C3: from the empty store, two B-to-A sends leave the unread
counter at 2; A fetching history with B resets it to 0. -/
theorem unread_counter_counts_sends_witness :
    WFdb emptyDB ∧
    findConversation emptyDB.conversations "B" "A" = none ∧
    ([("hi", 1), ("yo", 2)] : List (String × Nat)) ≠ [] ∧
    unreadOf (runSendsFrom emptyDB "B" "Bob" "A" [("hi", 1), ("yo", 2)]) "B" "A"
      = some 2 ∧
    unreadOf ((get_messages
        (runSendsFrom emptyDB "B" "Bob" "A" [("hi", 1), ("yo", 2)]) "A" "B").1)
        "B" "A" = some 0 :=
  ⟨by constructor <;> simp [emptyDB], by decide, by decide,
   (unread_counter_counts_sends emptyDB "B" "Bob" "A" [("hi", 1), ("yo", 2)]
      (by constructor <;> simp [emptyDB]) (by decide) (by decide)).1,
   (unread_counter_counts_sends emptyDB "B" "Bob" "A" [("hi", 1), ("yo", 2)]
      (by constructor <;> simp [emptyDB]) (by decide) (by decide)).2⟩

/-- C4. History retrieval returns only messages between the two identities,
sorted by timestamp ascending, at most 100 of them — and exactly the
matching set whenever it fits the page; as a side effect every message from
the other party to the requester is read afterwards, messages sent by the
requester are untouched, and the pair's conversation counter (unique by the
pair invariant) is reset to 0. -/
theorem history_fetch_contract (db : DB) (u o : String) :
    (∀ m ∈ (get_messages db u o).2, matchesPair u o m = true) ∧
    (get_messages db u o).2.Pairwise (fun x y => x.timestamp ≤ y.timestamp) ∧
    (get_messages db u o).2.length ≤ 100 ∧
    ((db.messages.filter (matchesPair u o)).length ≤ 100 →
      (get_messages db u o).2.Perm (db.messages.filter (matchesPair u o))) ∧
    (∀ m ∈ (get_messages db u o).1.messages,
      m.sender_id = o → m.receiver_id = u → m.read = true) ∧
    (u ≠ o → ∀ m ∈ db.messages, m.sender_id = u → m ∈ (get_messages db u o).1.messages) ∧
    (countPair db u o ≤ 1 →
      ∀ c ∈ (get_messages db u o).1.conversations,
        pairPred u o c = true → c.unread_count = 0) := by
  have htrans : ∀ a b c : Message, tsLe a b → tsLe b c → tsLe a c := by
    intro a b c hab hbc
    simp only [tsLe, decide_eq_true_eq] at *
    omega
  have htotal : ∀ a b : Message, tsLe a b || tsLe b a := by
    intro a b
    simp only [tsLe, Bool.or_eq_true, decide_eq_true_eq]
    omega
  refine ⟨?_, ?_, ?_, ?_, ?_, ?_, ?_⟩
  · intro m hm
    simp only [get_messages_eq] at hm
    have hm1 := List.mem_of_mem_take hm
    have hm2 := List.mem_mergeSort.mp hm1
    exact (List.mem_filter.mp hm2).2
  · simp only [get_messages_eq]
    have hs := @List.sorted_mergeSort Message tsLe htrans htotal
      (db.messages.filter (matchesPair u o))
    have hs' : ((db.messages.filter (matchesPair u o)).mergeSort tsLe).Pairwise
        (fun x y : Message => x.timestamp ≤ y.timestamp) := by
      refine hs.imp ?_
      intro a b hab
      simpa [tsLe] using hab
    exact hs'.sublist (List.take_sublist 100 _)
  · simp only [get_messages_eq]
    rw [List.length_take]
    exact Nat.min_le_left _ _
  · intro hlen
    simp only [get_messages_eq]
    rw [List.take_of_length_le (by rw [List.length_mergeSort]; exact hlen)]
    exact List.mergeSort_perm _ tsLe
  · intro m hm hso hru
    simp only [get_messages_eq] at hm
    obtain ⟨x, hx, rfl⟩ := List.mem_map.mp hm
    by_cases hc : (x.sender_id == o && x.receiver_id == u && x.read == false) = true
    · rw [if_pos hc]
    · rw [if_neg hc] at hso hru ⊢
      have hs : (x.sender_id == o) = true := by simp [hso]
      have hr2 : (x.receiver_id == u) = true := by simp [hru]
      cases hrd : x.read with
      | true => rfl
      | false => exact absurd (by simp [hs, hr2, hrd]) hc
  · intro hneq m hm hsu
    simp only [get_messages_eq]
    apply List.mem_map.mpr
    refine ⟨m, hm, ?_⟩
    have hso : (m.sender_id == o) = false := by
      rw [hsu]
      exact beq_eq_false_iff_ne.mpr hneq
    rw [if_neg (by simp [hso])]
  · intro hcp c hc hcpair
    simp only [get_messages_eq] at hc
    exact updateFirst_resetF_all db.conversations hcp c hc hcpair

/-- Witness for C4 at `dbWc4`: requester u, other party o; the page is the
two pair messages in timestamp order, u's own message survives unmarked, and
the pair's conversation counter is 0 after the fetch. -/
theorem history_fetch_contract_witness :
    ("u" : String) ≠ "o" ∧
    countPair dbWc4 "u" "o" ≤ 1 ∧
    (dbWc4.messages.filter (matchesPair "u" "o")).length ≤ 100 ∧
    msgWc4 ∈ dbWc4.messages ∧
    msgWc4.sender_id = "u" ∧
    (get_messages dbWc4 "u" "o").2.Perm (dbWc4.messages.filter (matchesPair "u" "o")) ∧
    msgWc4 ∈ (get_messages dbWc4 "u" "o").1.messages ∧
    (∀ c ∈ (get_messages dbWc4 "u" "o").1.conversations,
      pairPred "u" "o" c = true → c.unread_count = 0) :=
  ⟨by decide, by decide, by decide, by decide, by decide,
   (history_fetch_contract dbWc4 "u" "o").2.2.2.1 (by decide),
   (history_fetch_contract dbWc4 "u" "o").2.2.2.2.2.1 (by decide) msgWc4
     (by decide) (by decide),
   (history_fetch_contract dbWc4 "u" "o").2.2.2.2.2.2 (by decide)⟩

/-- C10. The mark-as-read update of `get_messages` carries no limit: even
when more than 100 unread messages from the other party exist, after the
fetch every message from the other party to the requester is read — none is
dropped (the collection keeps its size) — while the returned page stays
bounded by 100. -/
theorem mark_read_unbounded (db : DB) (u o : String)
    (h : 100 < (db.messages.filter
      (fun m => m.sender_id == o && m.receiver_id == u && m.read == false)).length) :
    ((get_messages db u o).1.messages.all
      (fun m => !(m.sender_id == o && m.receiver_id == u) || m.read)) = true ∧
    (get_messages db u o).2.length ≤ 100 ∧
    (get_messages db u o).1.messages.length = db.messages.length := by
  refine ⟨?_, ?_, ?_⟩
  · simp only [get_messages_eq]
    rw [List.all_eq_true]
    intro m' hm'
    obtain ⟨x, hx, rfl⟩ := List.mem_map.mp hm'
    by_cases hc : (x.sender_id == o && x.receiver_id == u && x.read == false) = true
    · rw [if_pos hc]
      simp
    · rw [if_neg hc]
      cases hs : (x.sender_id == o) <;> cases hr : (x.receiver_id == u) <;>
        cases hrd : x.read <;> simp_all
  · simp only [get_messages_eq]
    rw [List.length_take]
    exact Nat.min_le_left _ _
  · simp only [get_messages_eq]
    rw [List.length_map]

/-- Witness for C10 at `dbWc10`: 101 unread messages from o to u exceed the
page size; after the fetch all of them are read, the page holds at most 100,
and no message was lost. -/
theorem mark_read_unbounded_witness :
    100 < (dbWc10.messages.filter
      (fun m => m.sender_id == "o" && m.receiver_id == "u" && m.read == false)).length ∧
    (((get_messages dbWc10 "u" "o").1.messages.all
      (fun m => !(m.sender_id == "o" && m.receiver_id == "u") || m.read)) = true ∧
    (get_messages dbWc10 "u" "o").2.length ≤ 100 ∧
    (get_messages dbWc10 "u" "o").1.messages.length = dbWc10.messages.length) :=
  ⟨by decide, mark_read_unbounded dbWc10 "u" "o" (by decide)⟩

/-- C1 (amended). The send pipeline constructs the notification payload —
carrying the new message id, the sender's identity and display name, the
content and the timestamp — and returns it in the HTTP response, but it
never invokes the registry's point-to-point delivery: the connection
registry (and hence every live channel) is left untouched whether or not the
receiver is live, and no error is raised to the sender. -/
theorem send_returns_payload_without_push (s : AppState)
    (sender_id sender_name receiver_id content : String) (now : Nat) :
    (send_message_app s sender_id sender_name receiver_id content now).1.manager
      = s.manager ∧
    (send_message_app s sender_id sender_name receiver_id content now).2.2 =
      { type := "new_message", message_id := s.db.nextId, sender_id := sender_id,
        sender_name := sender_name, content := content, timestamp := now } :=
  ⟨rfl, rfl⟩

/-- Counterexample to C1 as stated: in `exState` the receiver B holds a
live, healthy channel, yet after A's send the registry is unchanged and B's
channel has received nothing — no notification was delivered. -/
theorem send_no_live_delivery_counterexample :
    lookup exState.manager "B" = some exChannel ∧
    exChannel.healthy = true ∧
    exChannel.received = [] ∧
    (send_message_app exState "A" "Alice" "B" "hi" 0).1.manager = exState.manager ∧
    lookup (send_message_app exState "A" "Alice" "B" "hi" 0).1.manager "B"
      = some exChannel := by
  refine ⟨by decide, rfl, rfl, rfl, by decide⟩

end Chas
